import Mathlib

/-!
Verification development for the roadrunner-lang interpreter
(lexer src/lexer.rs, parser src/parser.rs, evaluator src/evaluator.rs,
AST src/ast.rs, tokens src/token.rs, environments src/environment.rs).

The Rust code is embedded shallowly:

* The lexer is modelled on lists of characters.  The sources under test are
  ASCII, where Lean's Char.isAlpha / Char.isAlphanum / Char.isWhitespace /
  Char.isDigit agree with Rust's char::is_alphabetic / char::is_alphanumeric /
  char::is_whitespace / char::is_ascii_digit.  Reaching the end of the input
  yields the Eof token; the parser-side token feed keeps yielding Eof once the
  list is exhausted, modelling the lexer's indefinite Eof stream.
* The parser's mutable state (current token, peek token, the lexer position,
  and the accumulated error list) is a record threaded explicitly.  Every
  parser function takes a fuel argument and returns none exactly when the
  fuel runs out, so a run of the Rust parser that does not terminate is a
  run whose Lean counterpart returns none at every fuel.
* The evaluator's Rc<RefCell<Environment>> frames are modelled by a store
  (list of frames) addressed by index; Rc::clone is sharing of the index and
  borrow_mut().set is an in-place store update.  HashMap insert/get is
  modelled by prepending to an association list and taking the first match,
  which is observationally identical for get.
* Machine integers (i64) are Int with explicit range checks.  The repo's own
  tests run under cargo's debug profile, where + - * and unary - panic on
  overflow and / panics on a zero divisor (in every profile); a panic is the
  evaluator result trap below.  Fuel exhaustion is the separate result out.
-/

set_option maxRecDepth 10000

namespace Roadrunner

/-! ## Tokens (src/token.rs) -/

inductive Token where
  | Illegal
  | Eof
  | Ident (name : String)
  | Int (value : Int)
  | Assign
  | Plus
  | Minus
  | Bang
  | Asterisk
  | Slash
  | LessThan
  | GreaterThan
  | Eq
  | NotEq
  | Comma
  | Semicolon
  | Lparen
  | Rparen
  | Lbrace
  | Rbrace
  | Function
  | Let
  | True
  | False
  | If
  | Else
  | Return
deriving DecidableEq, Repr

/-- Token::to_literal (src/token.rs). -/
def toLiteral : Token → String
  | Token.Illegal => "ILLEGAL"
  | Token.Eof => "EOF"
  | Token.Ident id => id
  | Token.Int i => toString i
  | Token.Assign => "="
  | Token.Plus => "+"
  | Token.Minus => "-"
  | Token.Bang => "!"
  | Token.Asterisk => "*"
  | Token.Slash => "/"
  | Token.LessThan => "<"
  | Token.GreaterThan => ">"
  | Token.Eq => "=="
  | Token.NotEq => "!="
  | Token.Comma => ","
  | Token.Semicolon => ";"
  | Token.Lparen => "("
  | Token.Rparen => ")"
  | Token.Lbrace => "\x7b"
  | Token.Rbrace => "\x7d"
  | Token.Function => "fn"
  | Token.Let => "let"
  | Token.True => "true"
  | Token.False => "false"
  | Token.If => "if"
  | Token.Else => "else"
  | Token.Return => "return"

/-- lookup_ident (src/token.rs): linear scan of the KEYWORDS table. -/
def lookupIdent (id : String) : Token :=
  if id = "fn" then Token.Function
  else if id = "let" then Token.Let
  else if id = "true" then Token.True
  else if id = "false" then Token.False
  else if id = "if" then Token.If
  else if id = "else" then Token.Else
  else if id = "return" then Token.Return
  else Token.Ident id

/-! ## Lexer (src/lexer.rs) -/

/-- skip_whitespace. -/
def skipWs : List Char → List Char
  | [] => []
  | c :: cs => if c.isWhitespace then skipWs cs else c :: cs

/-- read_identifier's scan: consume while alphanumeric or underscore. -/
def spanIdent : List Char → List Char × List Char
  | [] => ([], [])
  | c :: cs =>
    if c.isAlphanum || c = '_' then
      let (xs, rest) := spanIdent cs
      (c :: xs, rest)
    else ([], c :: cs)

/-- read_number's scan: consume while an ASCII digit. -/
def spanDigits : List Char → List Char × List Char
  | [] => ([], [])
  | c :: cs =>
    if c.isDigit then
      let (xs, rest) := spanDigits cs
      (c :: xs, rest)
    else ([], c :: cs)

/-- read_number's `parse::<i64>().unwrap_or(0)`: a decimal literal above
i64::MAX fails to parse and becomes 0. -/
def intFromDigits (cs : List Char) : Int :=
  let n : Nat := cs.foldl (fun a c => a * 10 + (c.toNat - 48)) 0
  if n ≤ 9223372036854775807 then (n : Int) else 0

/-- next_token (src/lexer.rs), on the remaining character list.  Returns the
token and the rest of the input.  The end of the list plays the role of the
NUL lookahead character. -/
def nextTokenL (input : List Char) : Token × List Char :=
  match skipWs input with
  | [] => (Token.Eof, [])
  | c :: rest =>
    if c = '=' then
      match rest with
      | '=' :: r2 => (Token.Eq, r2)
      | _ => (Token.Assign, rest)
    else if c = '+' then (Token.Plus, rest)
    else if c = '-' then (Token.Minus, rest)
    else if c = '!' then
      match rest with
      | '=' :: r2 => (Token.NotEq, r2)
      | _ => (Token.Bang, rest)
    else if c = '*' then (Token.Asterisk, rest)
    else if c = '<' then (Token.LessThan, rest)
    else if c = '>' then (Token.GreaterThan, rest)
    else if c = '/' then (Token.Slash, rest)
    else if c = ',' then (Token.Comma, rest)
    else if c = ';' then (Token.Semicolon, rest)
    else if c = '(' then (Token.Lparen, rest)
    else if c = ')' then (Token.Rparen, rest)
    else if c = '\x7b' then (Token.Lbrace, rest)
    else if c = '\x7d' then (Token.Rbrace, rest)
    else if c.isAlpha || c = '_' then
      let (xs, r) := spanIdent (c :: rest)
      (lookupIdent (String.mk xs), r)
    else if c.isDigit then
      let (xs, r) := spanDigits (c :: rest)
      (Token.Int (intFromDigits xs), r)
    else (Token.Illegal, rest)

/-- Repeated next_token until Eof.  Every non-Eof token consumes at least one
character, so fuel = length + 1 always suffices; the fuel-out branch returns
the list closed with Eof so that the produced stream always ends in Eof. -/
def tokenizeF : Nat → List Char → List Token
  | 0, _ => [Token.Eof]
  | n + 1, cs =>
    match nextTokenL cs with
    | (Token.Eof, _) => [Token.Eof]
    | (t, rest) => t :: tokenizeF n rest

/-- The lexer's token stream for a source string (finite prefix up to the
first Eof; the parser feed below extends it with Eof indefinitely). -/
def tokenize (s : String) : List Token :=
  tokenizeF (s.length + 1) s.data

/-! ## AST (src/ast.rs) -/

/-- Node (src/ast.rs): the single recursive sum covering expressions and
statements.  PrefixE / InfixE are Rust's Node::Prefix / Node::Infix. -/
inductive Node where
  | Program (statements : List Node)
  | IntegerLiteral (value : Int)
  | Identifier (name : String)
  | PrefixE (operator : String) (right : Option Node)
  | InfixE (left : Option Node) (operator : String) (right : Option Node)
  | BooleanLiteral (value : Bool)
  | If (condition : Option Node) (consequence : Option Node)
      (alternative : Option Node)
  | Function (parameters : List Node) (body : Option Node)
  | Call (function : Option Node) (arguments : List Node)
  | Let (name : Option Node) (value : Option Node)
  | Return (returnValue : Option Node)
  | ExprStmt (expression : Option Node)
  | Block (statements : List Node)

/-- Node::string (src/ast.rs), fuelled so that it computes by kernel
reduction; the fuel only bounds the nesting depth of the tree. -/
def stringF : Nat → Node → String
  | 0, _ => ""
  | n + 1, node =>
    match node with
    | Node.Program stmts => String.intercalate "" (stmts.map (stringF n))
    | Node.IntegerLiteral v => toString v
    | Node.Identifier nm => nm
    | Node.PrefixE op right =>
      "(" ++ op ++ (match right with | some r => stringF n r | none => "") ++ ")"
    | Node.InfixE left op right =>
      "(" ++ (match left with | some l => stringF n l | none => "") ++ " " ++ op
        ++ " " ++ (match right with | some r => stringF n r | none => "") ++ ")"
    | Node.BooleanLiteral b => if b then "true" else "false"
    | Node.If c k a =>
      "if " ++ (match c with | some x => stringF n x | none => "")
        ++ " " ++ (match k with | some x => stringF n x | none => "")
        ++ " else " ++ (match a with | some x => stringF n x | none => "")
    | Node.Function ps body =>
      "fn(" ++ String.intercalate ", " (ps.map (stringF n)) ++ ") \x7b"
        ++ (match body with | some b => stringF n b | none => "") ++ "\x7d"
    | Node.Call f args =>
      (match f with | some x => stringF n x | none => "")
        ++ "(" ++ String.intercalate ", " (args.map (stringF n)) ++ ")"
    | Node.Let nm v =>
      "let " ++ (match nm with | some x => stringF n x | none => "")
        ++ " = " ++ (match v with | some x => stringF n x | none => "")
    | Node.Return rv =>
      "return " ++ (match rv with | some x => stringF n x | none => "")
    | Node.ExprStmt e => match e with | some x => stringF n x | none => ""
    | Node.Block stmts => String.intercalate "\n" (stmts.map (stringF n))

/-- Precedence (src/ast.rs); the derived PartialOrd compares declaration
order, modelled through precNat below. -/
inductive Precedence where
  | lowest
  | equals
  | lessGreater
  | sum
  | product
  | prefixOp
  | call
deriving DecidableEq, Repr

def precNat : Precedence → Nat
  | Precedence.lowest => 0
  | Precedence.equals => 1
  | Precedence.lessGreater => 2
  | Precedence.sum => 3
  | Precedence.product => 4
  | Precedence.prefixOp => 5
  | Precedence.call => 6

/-! ## Parser (src/parser.rs)

The parser state is the pair of lookahead tokens, the not-yet-pulled tail of
the token stream, and the accumulated error list.  Pulling from the exhausted
stream yields Eof, exactly as the lexer does once the input is consumed.
Every parser function takes a fuel (recursion/iteration budget) and returns
none exactly when the budget runs out.  -/

structure ParseError where
  message : String
  token : Token
deriving DecidableEq, Repr

structure PSt where
  cur : Token
  peek : Token
  rest : List Token
  errs : List ParseError
deriving DecidableEq, Repr

/-- Parser::next_token: shift peek into current and pull a fresh peek from
the lexer (Eof forever once the stream is exhausted). -/
def advance (st : PSt) : PSt :=
  match st.rest with
  | [] => ⟨st.peek, Token.Eof, [], st.errs⟩
  | t :: ts => ⟨st.peek, t, ts, st.errs⟩

/-- self.errors.push(ParseError \x7b message, token \x7d). -/
def pushErr (msg : String) (tok : Token) (st : PSt) : PSt :=
  { st with errs := st.errs ++ [⟨msg, tok⟩] }

def pushErrP (e : ParseError) (st : PSt) : PSt :=
  { st with errs := st.errs ++ [e] }

/-- Parser::get_precedence. -/
def getPrecedence : Token → Precedence
  | Token.Lparen => Precedence.call
  | Token.Eq => Precedence.equals
  | Token.NotEq => Precedence.equals
  | Token.LessThan => Precedence.lessGreater
  | Token.GreaterThan => Precedence.lessGreater
  | Token.Plus => Precedence.sum
  | Token.Minus => Precedence.sum
  | Token.Asterisk => Precedence.product
  | Token.Slash => Precedence.product
  | _ => Precedence.lowest

/-- Parser::parse_identifier (no state change, no recursion). -/
def parseIdentifierP (st : PSt) : Option Node × PSt :=
  match st.cur with
  | Token.Ident id => (some (Node.Identifier id), st)
  | _ => (none, st)

/-- Parser::parse_integer_literal. -/
def parseIntegerLiteralP (st : PSt) : Option Node × PSt :=
  match st.cur with
  | Token.Int v => (some (Node.IntegerLiteral v), st)
  | _ => (none, st)

/-- Parser::parse_boolean_literal. -/
def parseBooleanLiteralP (st : PSt) : Option Node × PSt :=
  match st.cur with
  | Token.True => (some (Node.BooleanLiteral true), st)
  | Token.False => (some (Node.BooleanLiteral false), st)
  | _ => (none, st)

/-- The recovery loop in parse_let_statement:
`while current_token != Semicolon \x7b next_token() \x7d`.
It does NOT test for Eof, so on a stream with no remaining semicolon the
Rust loop runs forever; here it returns none at every fuel. -/
def skipToSemiF : Nat → PSt → Option PSt
  | 0, _ => none
  | n + 1, st =>
    if st.cur = Token.Semicolon then some st else skipToSemiF n (advance st)

/-- The loop at the top of parse_return_statement:
`while peek_token == Semicolon \x7b next_token() \x7d`. -/
def skipPeekSemisF : Nat → PSt → Option PSt
  | 0, _ => none
  | n + 1, st =>
    if st.peek = Token.Semicolon then skipPeekSemisF n (advance st) else some st

mutual

/-- The while-loop of Parser::parse_program. -/
def parseProgramLoopF : Nat → List Node → PSt → Option (List Node × PSt)
  | 0, _, _ => none
  | n + 1, acc, st =>
    if st.cur ≠ Token.Eof then
      match parseStatementF n st with
      | none => none
      | some (Except.ok stmt, st1) => parseProgramLoopF n (acc ++ [stmt]) (advance st1)
      | some (Except.error e, st1) => parseProgramLoopF n acc (advance (pushErrP e st1))
    else some (acc, st)

/-- Parser::parse_statement. -/
def parseStatementF : Nat → PSt → Option (Except ParseError Node × PSt)
  | 0, _ => none
  | n + 1, st =>
    match st.cur with
    | Token.Let => parseLetStatementF n st
    | Token.Return => parseReturnStatementF n st
    | _ => parseExpressionStatementF n st

/-- Parser::parse_let_statement. -/
def parseLetStatementF : Nat → PSt → Option (Except ParseError Node × PSt)
  | 0, _ => none
  | n + 1, st =>
    let st1 := advance st
    match st1.cur with
    | Token.Ident nm =>
      if st1.peek ≠ Token.Assign then
        some (Except.error ⟨"Expected \x27=\x27 after variable name", st1.cur⟩, st1)
      else
        let st2 := advance (advance st1)
        match parseExpressionF n Precedence.lowest st2 with
        | none => none
        | some (value, st3) =>
          match skipToSemiF n st3 with
          | none => none
          | some st4 =>
            some (Except.ok (Node.Let (some (Node.Identifier nm)) value), st4)
    | _ =>
      some (Except.error ⟨"Expected identifier after \x27let\x27", st1.cur⟩, st1)

/-- Parser::parse_return_statement.  Note the order of operations: the
skip-past-semicolons loop runs BEFORE the value expression is parsed. -/
def parseReturnStatementF : Nat → PSt → Option (Except ParseError Node × PSt)
  | 0, _ => none
  | n + 1, st =>
    let st1 := advance st
    match skipPeekSemisF n st1 with
    | none => none
    | some st2 =>
      match parseExpressionF n Precedence.lowest st2 with
      | none => none
      | some (rv, st3) => some (Except.ok (Node.Return rv), st3)

/-- Parser::parse_expression_statement. -/
def parseExpressionStatementF : Nat → PSt → Option (Except ParseError Node × PSt)
  | 0, _ => none
  | n + 1, st =>
    match parseExpressionF n Precedence.lowest st with
    | none => none
    | some (e, st1) =>
      let st2 := if st1.peek = Token.Semicolon then advance st1 else st1
      some (Except.ok (Node.ExprStmt e), st2)

/-- Parser::parse_expression: prefix dispatch, then the infix loop. -/
def parseExpressionF : Nat → Precedence → PSt → Option (Option Node × PSt)
  | 0, _, _ => none
  | n + 1, prec, st =>
    let pr : Option (Option Node × PSt) :=
      match st.cur with
      | Token.Ident _ => some (parseIdentifierP st)
      | Token.Int _ => some (parseIntegerLiteralP st)
      | Token.Bang => parsePrefixExpressionF n st
      | Token.Minus => parsePrefixExpressionF n st
      | Token.True => some (parseBooleanLiteralP st)
      | Token.False => some (parseBooleanLiteralP st)
      | Token.Lparen => parseGroupedExpressionF n st
      | Token.If => parseIfExpressionF n st
      | Token.Function => parseFunctionLiteralF n st
      | _ => some (none, st)
    match pr with
    | none => none
    | some (none, st1) => some (none, st1)
    | some (some l, st1) => parseInfixLoopF n prec (some l) st1

/-- The while-loop of parse_expression. -/
def parseInfixLoopF : Nat → Precedence → Option Node → PSt → Option (Option Node × PSt)
  | 0, _, _, _ => none
  | n + 1, prec, left, st =>
    if st.peek ≠ Token.Semicolon ∧ precNat prec < precNat (getPrecedence st.peek) then
      match st.peek with
      | Token.Lparen =>
        match parseCallExpressionF n left st with
        | none => none
        | some (l2, st2) => parseInfixLoopF n prec l2 st2
      | Token.Plus | Token.Minus | Token.Slash | Token.Asterisk
      | Token.Eq | Token.NotEq | Token.LessThan | Token.GreaterThan =>
        match parseInfixExpressionF n left (advance st) with
        | none => none
        | some (l2, st2) => parseInfixLoopF n prec l2 st2
      | _ => some (left, st)
    else some (left, st)

/-- Parser::parse_infix_expression (current token is the operator). -/
def parseInfixExpressionF : Nat → Option Node → PSt → Option (Option Node × PSt)
  | 0, _, _ => none
  | n + 1, left, st =>
    let op := toLiteral st.cur
    let prec := getPrecedence st.cur
    let st1 := advance st
    match parseExpressionF n prec st1 with
    | none => none
    | some (right, st2) =>
      match right with
      | none =>
        some (left, pushErr "Expected expression after infix operator" st2.cur st2)
      | some _ => some (some (Node.InfixE left op right), st2)

/-- Parser::parse_call_expression. -/
def parseCallExpressionF : Nat → Option Node → PSt → Option (Option Node × PSt)
  | 0, _, _ => none
  | n + 1, left, st =>
    match parseCallArgumentsF n st with
    | none => none
    | some (args, st1) => some (some (Node.Call left args), st1)

/-- Parser::parse_call_arguments. -/
def parseCallArgumentsF : Nat → PSt → Option (List Node × PSt)
  | 0, _ => none
  | n + 1, st =>
    if st.peek = Token.Rparen then some ([], advance st)
    else
      let st1 := advance st
      match parseExpressionF n Precedence.lowest st1 with
      | none => none
      | some (e, st2) =>
        let args := match e with | some x => [x] | none => []
        match parseCallArgsLoopF n args st2 with
        | none => none
        | some (args2, st3) =>
          if st3.peek ≠ Token.Rparen then some (args2, st3)
          else some (args2, advance st3)

/-- The `while peek == Comma` loop of parse_call_arguments. -/
def parseCallArgsLoopF : Nat → List Node → PSt → Option (List Node × PSt)
  | 0, _, _ => none
  | n + 1, args, st =>
    if st.peek = Token.Comma then
      let st1 := advance (advance st)
      match parseExpressionF n Precedence.lowest st1 with
      | none => none
      | some (e, st2) =>
        parseCallArgsLoopF n (args ++ (match e with | some x => [x] | none => [])) st2
    else some (args, st)

/-- Parser::parse_if_expression. -/
def parseIfExpressionF : Nat → PSt → Option (Option Node × PSt)
  | 0, _ => none
  | n + 1, st =>
    if st.peek ≠ Token.Lparen then some (none, st)
    else
      let st1 := advance st
      match parseExpressionF n Precedence.lowest st1 with
      | none => none
      | some (cond, st2) =>
        if st2.cur ≠ Token.Rparen then some (none, st2)
        else
          let st3 := advance st2
          if st3.cur ≠ Token.Lbrace then some (none, st3)
          else
            match parseBlockStatementF n st3 with
            | none => none
            | some (cons, st4) =>
              if st4.peek = Token.Else then
                let st5 := advance st4
                match st5.peek with
                | Token.Lbrace =>
                  let st6 := advance st5
                  match parseBlockStatementF n st6 with
                  | none => none
                  | some (alt, st7) => some (some (Node.If cond cons alt), st7)
                | _ => some (some (Node.If cond cons none), st5)
              else some (some (Node.If cond cons none), st4)

/-- Parser::parse_function_literal. -/
def parseFunctionLiteralF : Nat → PSt → Option (Option Node × PSt)
  | 0, _ => none
  | n + 1, st =>
    let st1 := advance st
    if st1.cur ≠ Token.Lparen then some (none, st1)
    else
      match parseFnParamsF n st1 with
      | none => none
      | some (ps, st2) =>
        if st2.peek ≠ Token.Lbrace then
          some (some (Node.Function ps (some (Node.Block []))), st2)
        else
          let st3 := advance st2
          match parseBlockStatementF n st3 with
          | none => none
          | some (body, st4) => some (some (Node.Function ps body), st4)

/-- Parser::parse_fn_params (current token is the opening parenthesis). -/
def parseFnParamsF : Nat → PSt → Option (List Node × PSt)
  | 0, _ => none
  | n + 1, st =>
    let st1 := advance st
    if st1.cur = Token.Rparen then some ([], advance st1)
    else
      let ps := [Node.Identifier (toLiteral st1.cur)]
      match parseFnParamsLoopF n ps st1 with
      | none => none
      | some (ps2, st2) =>
        let st3 := advance st2
        if st3.cur ≠ Token.Rparen then some ([], st3)
        else some (ps2, st3)

/-- The `while peek == Comma` loop of parse_fn_params. -/
def parseFnParamsLoopF : Nat → List Node → PSt → Option (List Node × PSt)
  | 0, _, _ => none
  | n + 1, ps, st =>
    if st.peek = Token.Comma then
      let st1 := advance (advance st)
      parseFnParamsLoopF n (ps ++ [Node.Identifier (toLiteral st1.cur)]) st1
    else some (ps, st)

/-- Parser::parse_block_statement. -/
def parseBlockStatementF : Nat → PSt → Option (Option Node × PSt)
  | 0, _ => none
  | n + 1, st =>
    match parseBlockLoopF n [] (advance st) with
    | none => none
    | some (stmts, st1) => some (some (Node.Block stmts), st1)

/-- The statement loop of parse_block_statement (stops at Rbrace or Eof). -/
def parseBlockLoopF : Nat → List Node → PSt → Option (List Node × PSt)
  | 0, _, _ => none
  | n + 1, acc, st =>
    if st.cur ≠ Token.Rbrace ∧ st.cur ≠ Token.Eof then
      match parseStatementF n st with
      | none => none
      | some (Except.ok stmt, st1) => parseBlockLoopF n (acc ++ [stmt]) (advance st1)
      | some (Except.error e, st1) => parseBlockLoopF n acc (advance (pushErrP e st1))
    else some (acc, st)

/-- Parser::parse_prefix_expression. -/
def parsePrefixExpressionF : Nat → PSt → Option (Option Node × PSt)
  | 0, _ => none
  | n + 1, st =>
    match st.cur with
    | Token.Bang | Token.Minus =>
      let op := toLiteral st.cur
      let st1 := advance st
      match parseExpressionF n Precedence.prefixOp st1 with
      | none => none
      | some (right, st2) =>
        let st3 :=
          match right with
          | none => pushErr "Expected expression after prefix operator" st2.cur st2
          | some _ => st2
        some (some (Node.PrefixE op right), st3)
    | Token.Lbrace =>
      let op := toLiteral Token.Lbrace
      match parseGroupedExpressionF n st with
      | none => none
      | some (right, st2) => some (some (Node.PrefixE op right), st2)
    | _ => some (none, st)

/-- Parser::parse_grouped_expression. -/
def parseGroupedExpressionF : Nat → PSt → Option (Option Node × PSt)
  | 0, _ => none
  | n + 1, st =>
    let st1 := advance st
    match parseExpressionF n Precedence.lowest st1 with
    | none => none
    | some (e, st2) =>
      if st2.peek ≠ Token.Rparen then some (e, st2)
      else some (e, advance st2)

end

/-- Parser::new primes current and peek with two next_token calls,
starting from two Illegal placeholders. -/
def initPSt (toks : List Token) : PSt :=
  advance (advance ⟨Token.Illegal, Token.Illegal, toks, []⟩)

/-- Parser::parse_program. -/
def parseProgramF (fuel : Nat) (st : PSt) : Option (Node × PSt) :=
  match parseProgramLoopF fuel [] st with
  | none => none
  | some (stmts, st1) => some (Node.Program stmts, st1)

/-- Lex and parse a source string (fuel bounds the parser only). -/
def parseSource (fuel : Nat) (src : String) : Option (Node × PSt) :=
  parseProgramF fuel (initPSt (tokenize src))

/-- Parse then pretty-print, as program.string() does in the precedence
tests. -/
def progString (src : String) : String :=
  match parseSource 200 src with
  | some (p, _) => stringF 200 p
  | none => "PARSER OUT OF FUEL"

/-! ## Objects and environments (src/object.rs, src/environment.rs)

Environments are Rc<RefCell<Environment>> frames in Rust; here they live in
a store (list of frames) and an environment value is its index.  A frame's
HashMap is an association list whose most recent insertion is first. -/

inductive Object where
  | Integer (value : Int)
  | Boolean (value : Bool)
  | Null
  | ReturnValue (value : Object)
  | Error (message : String)
  | Function (parameters : List Node) (body : Option Node) (env : Nat)

/-- Object::type_name. -/
def typeName : Object → String
  | Object.Integer _ => "INTEGER"
  | Object.Boolean _ => "BOOLEAN"
  | Object.Null => "NULL"
  | Object.ReturnValue _ => "RETURN_VALUE"
  | Object.Error _ => "ERROR"
  | Object.Function _ _ _ => "FUNCTION_OBJ"

/-- Object::is_error. -/
def isError : Object → Bool
  | Object.Error _ => true
  | _ => false

structure Frame where
  bindings : List (String × Object)
  outer : Option Nat

abbrev Store := List Frame

/-- HashMap::get on one frame (first match in the association list). -/
def frameLookup : List (String × Object) → String → Option Object
  | [], _ => none
  | (k, v) :: rest, name => if k = name then some v else frameLookup rest name

/-- Environment::get: look in the own frame, else recurse into the outer
frame.  Frames are created with an outer index smaller than their own, so a
chain is never longer than the store; the fuel makes that bound explicit. -/
def envGetF : Nat → Store → Nat → String → Option Object
  | 0, _, _, _ => none
  | n + 1, s, idx, name =>
    match s[idx]? with
    | none => none
    | some fr =>
      match frameLookup fr.bindings name with
      | some v => some v
      | none =>
        match fr.outer with
        | some j => envGetF n s j name
        | none => none

def envGet (s : Store) (idx : Nat) (name : String) : Option Object :=
  envGetF (s.length + 1) s idx name

/-- Environment::set: HashMap::insert into the frame at idx. -/
def envSet (s : Store) (idx : Nat) (name : String) (v : Object) : Store :=
  match s[idx]? with
  | none => s
  | some fr => s.set idx ⟨(name, v) :: fr.bindings, fr.outer⟩

/-- Environment::new_enclosed: a fresh frame whose outer link is the given
environment; the fresh Rc is a fresh store index. -/
def newEnclosed (s : Store) (outer : Nat) : Nat × Store :=
  (s.length, s ++ [⟨[], some outer⟩])

/-- Environment::new(): the store of a fresh top-level environment. -/
def store0 : Store := [⟨[], none⟩]

/-! ## Evaluator (src/evaluator.rs)

Pure helpers first, then the fuelled mutual evaluation functions.  A Rust
panic (integer overflow under the debug profile that runs the test suite,
or division by zero in any profile) is the result trap; running out of the
embedding's fuel is the distinct result out. -/

/-- i64 range test for the debug-profile overflow checks. -/
def inI64 (x : Int) : Bool :=
  decide (-9223372036854775808 ≤ x ∧ x ≤ 9223372036854775807)

/-- Checked i64 arithmetic: some value, or none for the overflow panic. -/
def checkedI64 (x : Int) : Option Object :=
  if inI64 x then some (Object.Integer x) else none

/-- Evaluator::is_truthy: everything except Boolean(false) and Null. -/
def isTruthy : Object → Bool
  | Object.Boolean true => true
  | Object.Boolean false => false
  | Object.Null => false
  | _ => true

/-- Evaluator::eval_bang_operator_expression. -/
def evalBangOperatorExpression : Object → Object
  | Object.Boolean true => Object.Boolean false
  | Object.Boolean false => Object.Boolean true
  | Object.Integer _ => Object.Boolean false
  | Object.Null => Object.Boolean true
  | _ => Object.Boolean false

/-- Evaluator::eval_minus_prefix_operator_expression; negating i64::MIN
overflows (none = panic). -/
def evalMinusPrefixOperatorExpression : Object → Option Object
  | Object.Integer v => checkedI64 (-v)
  | o => some (Object.Error ("unknown operator: -" ++ typeName o))

/-- Evaluator::eval_prefix_expression. -/
def evalPrefixExpression (op : String) (right : Object) : Option Object :=
  if op = "!" then some (evalBangOperatorExpression right)
  else if op = "-" then evalMinusPrefixOperatorExpression right
  else some (Object.Error ("unknown operator: " ++ op ++ typeName right))

/-- Evaluator::eval_integer_infix_expression.  `left / right` is native i64
division: none (panic) when the divisor is zero or on i64::MIN / -1. -/
def evalIntegerInfixExpression (op : String) (a b : Int) : Option Object :=
  if op = "+" then checkedI64 (a + b)
  else if op = "-" then checkedI64 (a - b)
  else if op = "*" then checkedI64 (a * b)
  else if op = "/" then
    if b = 0 then none
    else if a = -9223372036854775808 ∧ b = -1 then none
    else some (Object.Integer (Int.tdiv a b))
  else if op = "<" then some (Object.Boolean (decide (a < b)))
  else if op = ">" then some (Object.Boolean (decide (b < a)))
  else if op = "==" then some (Object.Boolean (decide (a = b)))
  else if op = "!=" then some (Object.Boolean (decide (a ≠ b)))
  else
    some (Object.Error ("unknown operator: " ++ toString a ++ " " ++ op
      ++ " " ++ toString b))

/-- Evaluator::eval_boolean_infix_expression. -/
def evalBooleanInfixExpression (op : String) (a b : Bool) : Object :=
  if op = "==" then Object.Boolean (a == b)
  else if op = "!=" then Object.Boolean (a != b)
  else Object.Error ("unknown operator: BOOLEAN " ++ op ++ " BOOLEAN")

/-- Evaluator::eval_infix_expression (operands already evaluated). -/
def evalInfixExpression (op : String) (l r : Object) : Option Object :=
  match l, r with
  | Object.Integer a, Object.Integer b => evalIntegerInfixExpression op a b
  | Object.Boolean a, Object.Boolean b => some (evalBooleanInfixExpression op a b)
  | _, _ =>
    if typeName l ≠ typeName r then
      some (Object.Error ("type mismatch: " ++ typeName l ++ " " ++ op
        ++ " " ++ typeName r))
    else
      some (Object.Error ("unknown operator: " ++ typeName l ++ " " ++ op
        ++ " " ++ typeName r))

/-- Evaluator::unwrap_return_value. -/
def unwrapReturnValue : Object → Object
  | Object.ReturnValue v => v
  | o => o

/-- The parameter-binding loop of extend_function_env, over
parameters.zip(args). -/
def bindParams : List (Node × Object) → Nat → Store → Except Object Store
  | [], _, s => Except.ok s
  | (p, a) :: rest, idx, s =>
    match p with
    | Node.Identifier nm => bindParams rest idx (envSet s idx nm a)
    | _ => Except.error (Object.Error "function parameter must be an identifier")

/-- Evaluator::extend_function_env.  On the non-identifier-parameter error
the freshly allocated frame is dropped (the original store is kept), as the
abandoned Rc is in Rust. -/
def extendFunctionEnv (f : Object) (args : List Object) (s : Store) :
    Except Object (Nat × Store) :=
  match f with
  | Object.Function ps _ fenv =>
    let ns := newEnclosed s fenv
    match bindParams (ps.zip args) ns.1 ns.2 with
    | Except.ok s2 => Except.ok (ns.1, s2)
    | Except.error e => Except.error e
  | _ => Except.error (Object.Error ("not a function: " ++ typeName f))

/-- The result of a fuelled evaluation step.  trap is a host-level panic;
out is exhaustion of the embedding's fuel. -/
inductive EvalRes where
  | ok (value : Object) (store : Store)
  | trap
  | out

/-- The result of eval_expressions (a Vec of argument values). -/
inductive ExprsRes where
  | ok (values : List Object) (store : Store)
  | trap
  | out

mutual

/-- Evaluator::eval: dispatch on the node variant.  The per-variant helper
methods of the Rust impl that merely re-match the node
(eval_program, eval_if_statement, eval_block_statement, eval_let_statement,
eval_return_statement, pre_eval_prefix_expression, pre_eval_infix_expression,
eval_identifier, eval_function_literal, eval_call_expression) are inlined at
their single dispatch site; their unreachable wrong-variant guards are
dropped. -/
def evalF : Nat → Node → Nat → Store → EvalRes
  | 0, _, _, _ => EvalRes.out
  | n + 1, node, env, s =>
    match node with
    | Node.Program stmts => evalProgramGo n stmts Object.Null env s
    | Node.ExprStmt e =>
      match e with
      | none => EvalRes.ok Object.Null s
      | some x => evalF n x env s
    | Node.IntegerLiteral v => EvalRes.ok (Object.Integer v) s
    | Node.BooleanLiteral b => EvalRes.ok (Object.Boolean b) s
    | Node.PrefixE op right =>
      match (match right with
             | some r => evalF n r env s
             | none => EvalRes.ok Object.Null s) with
      | EvalRes.out => EvalRes.out
      | EvalRes.trap => EvalRes.trap
      | EvalRes.ok rv s1 =>
        if isError rv then EvalRes.ok rv s1
        else
          match evalPrefixExpression op rv with
          | some o => EvalRes.ok o s1
          | none => EvalRes.trap
    | Node.InfixE left op right =>
      match (match left with
             | some l => evalF n l env s
             | none => EvalRes.ok Object.Null s) with
      | EvalRes.out => EvalRes.out
      | EvalRes.trap => EvalRes.trap
      | EvalRes.ok lv s1 =>
        if isError lv then EvalRes.ok lv s1
        else
          match (match right with
                 | some r => evalF n r env s1
                 | none => EvalRes.ok Object.Null s1) with
          | EvalRes.out => EvalRes.out
          | EvalRes.trap => EvalRes.trap
          | EvalRes.ok rv s2 =>
            if isError rv then EvalRes.ok rv s2
            else
              match evalInfixExpression op lv rv with
              | some o => EvalRes.ok o s2
              | none => EvalRes.trap
    | Node.Block stmts => evalBlockGo n stmts Object.Null env s
    | Node.If c k a =>
      match (match c with
             | some cc => evalF n cc env s
             | none => EvalRes.ok Object.Null s) with
      | EvalRes.out => EvalRes.out
      | EvalRes.trap => EvalRes.trap
      | EvalRes.ok cv s1 =>
        if isError cv then EvalRes.ok cv s1
        else if isTruthy cv then
          match k with
          | some kk => evalF n kk env s1
          | none => EvalRes.ok Object.Null s1
        else
          match a with
          | some aa => evalF n aa env s1
          | none => EvalRes.ok Object.Null s1
    | Node.Return rv =>
      match rv with
      | some v =>
        match evalF n v env s with
        | EvalRes.out => EvalRes.out
        | EvalRes.trap => EvalRes.trap
        | EvalRes.ok val s1 =>
          if isError val then EvalRes.ok val s1
          else EvalRes.ok (Object.ReturnValue val) s1
      | none => EvalRes.ok Object.Null s
    | Node.Let name value =>
      match name with
      | none => EvalRes.ok Object.Null s
      | some nn =>
        match nn with
        | Node.Identifier nm =>
          match value with
          | some vv =>
            match evalF n vv env s with
            | EvalRes.out => EvalRes.out
            | EvalRes.trap => EvalRes.trap
            | EvalRes.ok obj s1 =>
              if isError obj then EvalRes.ok obj s1
              else EvalRes.ok obj (envSet s1 env nm obj)
          | none => EvalRes.ok Object.Null (envSet s env nm Object.Null)
        | _ =>
          EvalRes.ok (Object.Error "let statement name must be an identifier") s
    | Node.Identifier nm =>
      match envGet s env nm with
      | some v => EvalRes.ok v s
      | none => EvalRes.ok (Object.Error ("identifier not found: " ++ nm)) s
    | Node.Function ps body => EvalRes.ok (Object.Function ps body env) s
    | Node.Call f args =>
      match f with
      | none => EvalRes.ok Object.Null s
      | some ff =>
        match evalF n ff env s with
        | EvalRes.out => EvalRes.out
        | EvalRes.trap => EvalRes.trap
        | EvalRes.ok fv s1 =>
          if isError fv then EvalRes.ok fv s1
          else
            match evalExpressionsGo n args env s1 with
            | ExprsRes.out => EvalRes.out
            | ExprsRes.trap => EvalRes.trap
            | ExprsRes.ok vs s2 =>
              match vs with
              | [e] =>
                if isError e then EvalRes.ok e s2
                else applyFunctionF n fv vs s2
              | _ => applyFunctionF n fv vs s2
termination_by structural fuel _ _ _ => fuel

/-- The statement loop of Evaluator::eval_program: a ReturnValue is
unwrapped one level and returned; an Error is returned; otherwise the last
value (Null for the empty program) is the result. -/
def evalProgramGo : Nat → List Node → Object → Nat → Store → EvalRes
  | 0, _, _, _, _ => EvalRes.out
  | _ + 1, [], result, _, s => EvalRes.ok result s
  | n + 1, st :: rest, _, env, s =>
    match evalF n st env s with
    | EvalRes.out => EvalRes.out
    | EvalRes.trap => EvalRes.trap
    | EvalRes.ok r s1 =>
      match r with
      | Object.ReturnValue v => EvalRes.ok v s1
      | Object.Error m => EvalRes.ok (Object.Error m) s1
      | _ => evalProgramGo n rest r env s1
termination_by structural fuel _ _ _ _ => fuel

/-- The statement loop of Evaluator::eval_block_statement: a ReturnValue
whose inner value is not Null is returned still wrapped; ReturnValue(Null)
does not stop the block; an Error is returned. -/
def evalBlockGo : Nat → List Node → Object → Nat → Store → EvalRes
  | 0, _, _, _, _ => EvalRes.out
  | _ + 1, [], result, _, s => EvalRes.ok result s
  | n + 1, st :: rest, _, env, s =>
    match evalF n st env s with
    | EvalRes.out => EvalRes.out
    | EvalRes.trap => EvalRes.trap
    | EvalRes.ok r s1 =>
      match r with
      | Object.ReturnValue v =>
        match v with
        | Object.Null => evalBlockGo n rest (Object.ReturnValue Object.Null) env s1
        | _ => EvalRes.ok r s1
      | Object.Error m => EvalRes.ok (Object.Error m) s1
      | _ => evalBlockGo n rest r env s1
termination_by structural fuel _ _ _ _ => fuel

/-- Evaluator::eval_expressions: arguments left to right; on the first
error the singleton list holding it is returned. -/
def evalExpressionsGo : Nat → List Node → Nat → Store → ExprsRes
  | 0, _, _, _ => ExprsRes.out
  | _ + 1, [], _, s => ExprsRes.ok [] s
  | n + 1, e :: rest, env, s =>
    match evalF n e env s with
    | EvalRes.out => ExprsRes.out
    | EvalRes.trap => ExprsRes.trap
    | EvalRes.ok v s1 =>
      if isError v then ExprsRes.ok [v] s1
      else
        match evalExpressionsGo n rest env s1 with
        | ExprsRes.out => ExprsRes.out
        | ExprsRes.trap => ExprsRes.trap
        | ExprsRes.ok vs s2 => ExprsRes.ok (v :: vs) s2
termination_by structural fuel _ _ _ => fuel

/-- Evaluator::apply_function. -/
def applyFunctionF : Nat → Object → List Object → Store → EvalRes
  | 0, _, _, _ => EvalRes.out
  | n + 1, fObj, args, s =>
    match fObj with
    | Object.Function _ body _ =>
      match extendFunctionEnv fObj args s with
      | Except.error e => EvalRes.ok e s
      | Except.ok (idx, s1) =>
        match (match body with
               | some b => evalF n b idx s1
               | none => EvalRes.ok Object.Null s1) with
        | EvalRes.out => EvalRes.out
        | EvalRes.trap => EvalRes.trap
        | EvalRes.ok o s2 => EvalRes.ok (unwrapReturnValue o) s2
    | _ => EvalRes.ok (Object.Error ("not a function: " ++ typeName fObj)) s
termination_by structural fuel _ _ _ => fuel

end

/-- Parse a source in a fresh environment and evaluate the program, as the
evaluator tests do (parse errors do not stop evaluation there either). -/
def runProgram (fuel : Nat) (src : String) : EvalRes :=
  match parseSource fuel src with
  | none => EvalRes.out
  | some (prog, _) => evalF fuel prog 0 store0

/-- The resulting Object of an evaluation, if it neither panicked nor ran
out of fuel. -/
def resultObj : EvalRes → Option Object
  | EvalRes.ok o _ => some o
  | _ => none

/-- Divergence of the Rust parser on a source: every fuel is exhausted. -/
def parseDiverges (src : String) : Prop :=
  ∀ fuel, parseProgramF fuel (initPSt (tokenize src)) = none

/-! ## Helper lemmas -/

theorem skipToSemiF_none (f : Nat) :
    ∀ (st : PSt), st.cur ≠ Token.Semicolon → st.peek ≠ Token.Semicolon →
    Token.Semicolon ∉ st.rest → skipToSemiF f st = none := by
  induction f with
  | zero => intro st h1 h2 h3; rfl
  | succ n ih =>
    intro st h1 h2 h3
    simp only [skipToSemiF, if_neg h1]
    obtain ⟨cur, pk, rest, errs⟩ := st
    cases rest with
    | nil =>
      apply ih
      · exact h2
      · simp [advance]
      · simp [advance]
    | cons t ts =>
      apply ih
      · exact h2
      · simp only [advance]
        intro hEq
        exact h3 (by simp [hEq])
      · simp only [advance]
        intro hmem
        exact h3 (by simp [hmem])

theorem parseExprInt5 (k : Nat) :
    parseExpressionF k Precedence.lowest ⟨Token.Int 5, Token.Eof, [], []⟩ = none ∨
    parseExpressionF k Precedence.lowest ⟨Token.Int 5, Token.Eof, [], []⟩ =
      some (some (Node.IntegerLiteral 5), ⟨Token.Int 5, Token.Eof, [], []⟩) := by
  match k with
  | 0 => exact Or.inl rfl
  | 1 => exact Or.inl rfl
  | k + 2 => exact Or.inr rfl

theorem parseLetDiv (k : Nat) :
    parseLetStatementF k ⟨Token.Let, Token.Ident "x",
      [Token.Assign, Token.Int 5, Token.Eof], []⟩ = none := by
  match k with
  | 0 => rfl
  | n + 1 =>
    have hskip : skipToSemiF n ⟨Token.Int 5, Token.Eof, [], []⟩ = none := by
      apply skipToSemiF_none <;> simp
    have hexpr := parseExprInt5 n
    simp only [parseLetStatementF, advance]
    rcases hexpr with h | h <;> rw [h] <;> simp [hskip]

theorem parseProgramDivLetX5 (fuel : Nat) :
    parseProgramLoopF fuel [] ⟨Token.Let, Token.Ident "x",
      [Token.Assign, Token.Int 5, Token.Eof], []⟩ = none := by
  match fuel with
  | 0 => rfl
  | 1 => rfl
  | n + 2 =>
    have hlet := parseLetDiv n
    simp only [parseProgramLoopF, parseStatementF]
    rw [hlet]
    simp

theorem evalProgramGo_rv (n : Nat) :
    ∀ (stmts : List Node) (res : Object) (env : Nat) (s s' : Store) (v : Object),
    evalProgramGo n stmts res env s = EvalRes.ok (Object.ReturnValue v) s' →
    res = Object.ReturnValue v ∨
      ∃ st ∈ stmts, ∃ (m : Nat) (s₁ s₂ : Store),
        evalF m st env s₁ =
          EvalRes.ok (Object.ReturnValue (Object.ReturnValue v)) s₂ := by
  induction n with
  | zero =>
    intro stmts res env s s' v h
    exact absurd h (by simp [evalProgramGo])
  | succ n ih =>
    intro stmts res env s s' v h
    cases stmts with
    | nil =>
      left
      simp only [evalProgramGo, EvalRes.ok.injEq] at h
      exact h.1
    | cons st rest =>
      simp only [evalProgramGo] at h
      cases heval : evalF n st env s with
      | out => rw [heval] at h; exact absurd h (by simp)
      | trap => rw [heval] at h; exact absurd h (by simp)
      | ok r s1 =>
        rw [heval] at h
        cases r with
        | ReturnValue w =>
          simp only [EvalRes.ok.injEq] at h
          right
          refine ⟨st, List.mem_cons_self st rest, n, s, s1, ?_⟩
          rw [heval, h.1]
        | Error m =>
          simp only [EvalRes.ok.injEq] at h
          exact absurd h.1 (by simp)
        | Integer i =>
          rcases ih rest (Object.Integer i) env s1 s' v h with hL | ⟨st', hmem, w⟩
          · exact absurd hL (by simp)
          · exact Or.inr ⟨st', List.mem_cons_of_mem st hmem, w⟩
        | Boolean b =>
          rcases ih rest (Object.Boolean b) env s1 s' v h with hL | ⟨st', hmem, w⟩
          · exact absurd hL (by simp)
          · exact Or.inr ⟨st', List.mem_cons_of_mem st hmem, w⟩
        | Null =>
          rcases ih rest Object.Null env s1 s' v h with hL | ⟨st', hmem, w⟩
          · exact absurd hL (by simp)
          · exact Or.inr ⟨st', List.mem_cons_of_mem st hmem, w⟩
        | Function ps body fenv =>
          rcases ih rest (Object.Function ps body fenv) env s1 s' v h
            with hL | ⟨st', hmem, w⟩
          · exact absurd hL (by simp)
          · exact Or.inr ⟨st', List.mem_cons_of_mem st hmem, w⟩

theorem bindParams_identifiers_ok (names : List String) :
    ∀ (args : List Object) (idx : Nat) (s : Store),
    ∃ s', bindParams ((names.map Node.Identifier).zip args) idx s = Except.ok s' := by
  induction names with
  | nil => intro args idx s; exact ⟨s, rfl⟩
  | cons nm ns ih =>
    intro args idx s
    cases args with
    | nil => exact ⟨s, rfl⟩
    | cons a as => exact ih as idx (envSet s idx nm a)

theorem envSet_length (s : Store) (idx : Nat) (nm : String) (v : Object) :
    (envSet s idx nm v).length = s.length := by
  unfold envSet
  cases h : s[idx]? with
  | none => rfl
  | some fr => simp [List.length_set]

theorem envSet_outer (s : Store) (idx : Nat) (nm : String) (v : Object) (j : Nat) :
    ((envSet s idx nm v)[j]?).map Frame.outer = (s[j]?).map Frame.outer := by
  unfold envSet
  cases h : s[idx]? with
  | none => rfl
  | some fr =>
    by_cases hij : idx = j
    · subst hij
      have hlt : idx < s.length := by
        have := List.getElem?_eq_some.mp h
        exact this.1
      rw [List.getElem?_set_self hlt, h]
      rfl
    · rw [List.getElem?_set_ne hij]

theorem bindParams_pres (pairs : List (Node × Object)) :
    ∀ (idx : Nat) (s s' : Store), bindParams pairs idx s = Except.ok s' →
    s'.length = s.length ∧
      ∀ (j : Nat), (s'[j]?).map Frame.outer = (s[j]?).map Frame.outer := by
  induction pairs with
  | nil =>
    intro idx s s' h
    simp only [bindParams, Except.ok.injEq] at h
    subst h
    exact ⟨rfl, fun j => rfl⟩
  | cons pa rest ih =>
    intro idx s s' h
    obtain ⟨p, a⟩ := pa
    cases p with
    | Identifier nm =>
      simp only [bindParams] at h
      obtain ⟨h1, h2⟩ := ih idx (envSet s idx nm a) s' h
      refine ⟨by rw [h1, envSet_length], fun j => ?_⟩
      rw [h2 j]
      exact envSet_outer s idx nm a j
    | Program x => exact absurd h (by simp [bindParams])
    | IntegerLiteral x => exact absurd h (by simp [bindParams])
    | PrefixE x y => exact absurd h (by simp [bindParams])
    | InfixE x y z => exact absurd h (by simp [bindParams])
    | BooleanLiteral x => exact absurd h (by simp [bindParams])
    | If x y z => exact absurd h (by simp [bindParams])
    | Function x y => exact absurd h (by simp [bindParams])
    | Call x y => exact absurd h (by simp [bindParams])
    | Let x y => exact absurd h (by simp [bindParams])
    | Return x => exact absurd h (by simp [bindParams])
    | ExprStmt x => exact absurd h (by simp [bindParams])
    | Block x => exact absurd h (by simp [bindParams])

/-! ## Claim theorems -/

/-- C1: the claim says parsing and evaluating
`if (10 > 1) \x7b if (10 > 1) \x7b return 10; \x7d return 1; \x7d` yields
Integer(10), with the parser advancing past `return` and parsing the value at
lowest precedence.  The code does not do that: parse_return_statement's loop
skips onto the semicolon before calling parse_expression, so `return 10;`
parses with no value expression (first conjunct) and the full program
evaluates to Null, not Integer(10) (second conjunct) — contradicting the
repository's own test_return_statements. -/
theorem c1_return_value_dropped :
    parseSource 50 "return 10;" =
      some (Node.Program [Node.Return none], ⟨Token.Eof, Token.Eof, [], []⟩) ∧
    runProgram 200
        "if (10 > 1) \x7b if (10 > 1) \x7b return 10; \x7d return 1; \x7d" =
      EvalRes.ok Object.Null store0 :=
  ⟨rfl, rfl⟩

/-- C2 counterexample: parse_program does not terminate on every finite
source.  On `let x = 5` (no semicolon before end of input) the let-recovery
loop spins on the indefinite Eof stream: the parser returns none at every
fuel. -/
theorem c2_parse_divergence : parseDiverges "let x = 5" := by
  intro fuel
  show parseProgramF fuel (initPSt (tokenize "let x = 5")) = none
  have hst : initPSt (tokenize "let x = 5") =
      ⟨Token.Let, Token.Ident "x", [Token.Assign, Token.Int 5, Token.Eof], []⟩ := rfl
  rw [hst]
  unfold parseProgramF
  rw [parseProgramDivLetX5]

/-- C2 amended: whenever parse_program terminates it returns a Program node,
and it does terminate on malformed let statements whose broken tail still
contains a semicolon (`let x 5; let = 10;`); but the skip-to-semicolon
recovery does not stop at the end-of-input marker, so a `let` whose tail has
no semicolon loops forever (see the counterexample). -/
theorem c2_parse_returns_program :
    (∀ (fuel : Nat) (st : PSt) (r : Node × PSt),
      parseProgramF fuel st = some r → ∃ stmts, r.1 = Node.Program stmts) ∧
    ∃ r, parseProgramF 100 (initPSt (tokenize "let x 5; let = 10;")) = some r := by
  constructor
  · intro fuel st r h
    unfold parseProgramF at h
    cases hl : parseProgramLoopF fuel [] st with
    | none => rw [hl] at h; exact absurd h (by simp)
    | some p =>
      rw [hl] at h
      obtain ⟨stmts, st1⟩ := p
      simp only [Option.some.injEq] at h
      exact ⟨stmts, by rw [← h]⟩
  · exact ⟨_, rfl⟩

/-- C2 witness: the general part of the amended claim applied to the parse
of the empty source at fuel 2. -/
theorem c2_parse_returns_program_witness :
    ∃ stmts, (Node.Program [], (⟨Token.Eof, Token.Eof, [], []⟩ : PSt)).1 =
      Node.Program stmts :=
  c2_parse_returns_program.1 2 (initPSt (tokenize ""))
    (Node.Program [], ⟨Token.Eof, Token.Eof, [], []⟩) rfl

/-- C3: `5 + true; 5;` evaluates to exactly
Error("type mismatch: INTEGER + BOOLEAN") (mixed operand types produce the
type-mismatch error naming both type names), and in general a statement
evaluating to an Error makes the program loop return it immediately,
without evaluating the remaining statements. -/
theorem c3_type_mismatch :
    runProgram 200 "5 + true; 5;" =
      EvalRes.ok (Object.Error "type mismatch: INTEGER + BOOLEAN") store0 ∧
    ∀ (n : Nat) (st : Node) (rest : List Node) (env : Nat) (s : Store)
      (msg : String) (s₁ : Store),
      evalF n st env s = EvalRes.ok (Object.Error msg) s₁ →
      evalProgramGo (n + 1) (st :: rest) Object.Null env s =
        EvalRes.ok (Object.Error msg) s₁ := by
  refine ⟨rfl, ?_⟩
  intro n st rest env s msg s₁ h
  simp only [evalProgramGo]
  rw [h]

/-- C3 witness: the error short-circuit applied to the parsed statements of
`5 + true; 5;` at fuel 5. -/
theorem c3_type_mismatch_witness :
    evalProgramGo 6
      [Node.InfixE (some (Node.IntegerLiteral 5)) "+"
        (some (Node.BooleanLiteral true)),
       Node.ExprStmt (some (Node.IntegerLiteral 5))] Object.Null 0 store0 =
      EvalRes.ok (Object.Error "type mismatch: INTEGER + BOOLEAN") store0 :=
  c3_type_mismatch.2 5
    (Node.InfixE (some (Node.IntegerLiteral 5)) "+" (some (Node.BooleanLiteral true)))
    [Node.ExprStmt (some (Node.IntegerLiteral 5))] 0 store0
    "type mismatch: INTEGER + BOOLEAN" store0 rfl

/-- C4: the makeAdder closure program evaluates to Integer(5), and every
successful function application frame is allocated fresh at the end of the
store with its outer link pointing to the function's captured environment
(never the caller's). -/
theorem c4_closures :
    resultObj (runProgram 300
      "let makeAdder = fn(x) \x7b fn(y) \x7b x + y \x7d \x7d; let add2 = makeAdder(2); add2(3)") =
      some (Object.Integer 5) ∧
    ∀ (ps : List Node) (body : Option Node) (fenv : Nat) (args : List Object)
      (s : Store) (idx : Nat) (s' : Store),
      extendFunctionEnv (Object.Function ps body fenv) args s = Except.ok (idx, s') →
      idx = s.length ∧ ∃ bs, s'[idx]? = some ⟨bs, some fenv⟩ := by
  refine ⟨rfl, ?_⟩
  intro ps body fenv args s idx s' h
  simp only [extendFunctionEnv, newEnclosed] at h
  cases hb : bindParams (ps.zip args) s.length (s ++ [⟨[], some fenv⟩]) with
  | error e => rw [hb] at h; exact absurd h (by simp)
  | ok s2 =>
    rw [hb] at h
    simp only [Except.ok.injEq, Prod.mk.injEq] at h
    obtain ⟨hidx, hs'⟩ := h
    subst hs'
    refine ⟨hidx.symm, ?_⟩
    obtain ⟨hlen, houter⟩ := bindParams_pres (ps.zip args) s.length _ s2 hb
    have hbase : ((s ++ [(⟨[], some fenv⟩ : Frame)])[s.length]?) =
        some ⟨[], some fenv⟩ := by
      rw [List.getElem?_append_right (le_refl s.length)]
      simp
    have h2 := houter s.length
    rw [hbase] at h2
    rw [← hidx]
    cases hg : s2[s.length]? with
    | none => rw [hg] at h2; exact absurd h2 (by simp)
    | some fr =>
      rw [hg] at h2
      obtain ⟨bs, out⟩ := fr
      simp only [Option.map, Option.some.injEq] at h2
      subst h2
      exact ⟨bs, rfl⟩

/-- C4 witness: the frame-allocation property applied to a concrete
one-parameter application in a fresh environment. -/
theorem c4_closures_witness :
    (1 : Nat) = store0.length ∧
    ∃ bs, ([(⟨[], none⟩ : Frame), ⟨[("x", Object.Integer 1)], some 0⟩] :
        Store)[(1 : Nat)]? = some ⟨bs, some 0⟩ :=
  c4_closures.2 [Node.Identifier "x"] none 0 [Object.Integer 1] store0 1
    [⟨[], none⟩, ⟨[("x", Object.Integer 1)], some 0⟩] rfl

/-- C5: the pinned parenthesizations — parse followed by AST stringification
reproduces exactly the fully parenthesized forms, witnessing precedence and
left-associativity of the Pratt tables. -/
theorem c5_precedence_strings :
    progString "a + b * c + d / e - f" = "(((a + (b * c)) + (d / e)) - f)" ∧
    progString "-a * b" = "((-a) * b)" ∧
    progString "!-a" = "(!(-a))" :=
  ⟨rfl, rfl, rfl⟩

/-- C6 counterexample: eval of a Program CAN return a ReturnValue.  The
program evaluator unwraps exactly one level, so a return statement whose
value expression itself evaluates to a ReturnValue leaves a ReturnValue
observable at the top. -/
theorem c6_rv_observable :
    evalF 10 (Node.Program
        [Node.Return (some (Node.Return (some (Node.IntegerLiteral 1))))])
      0 store0 =
      EvalRes.ok (Object.ReturnValue (Object.Integer 1)) store0 := rfl

/-- C6 amended: the program evaluator unwraps one level of ReturnValue, so
its result is a ReturnValue only when some top-level statement evaluated to
a doubly wrapped ReturnValue(ReturnValue(v)) — which no statement produced
by ordinary evaluation of parser output does, but crafted return-of-return
nodes do (see the counterexample). -/
theorem c6_program_unwraps_one_level (n : Nat) (stmts : List Node) (env : Nat)
    (s s' : Store) (v : Object)
    (h : evalF n (Node.Program stmts) env s =
      EvalRes.ok (Object.ReturnValue v) s') :
    ∃ st ∈ stmts, ∃ (m : Nat) (s₁ s₂ : Store),
      evalF m st env s₁ =
        EvalRes.ok (Object.ReturnValue (Object.ReturnValue v)) s₂ := by
  cases n with
  | zero => exact absurd h (by simp [evalF])
  | succ n =>
    simp only [evalF] at h
    rcases evalProgramGo_rv n stmts Object.Null env s s' v h with hL | hR
    · exact absurd hL (by simp)
    · exact hR

/-- C6 witness: the amended theorem applied to a concrete nested-return
program. -/
theorem c6_program_unwraps_one_level_witness :
    ∃ st ∈ [Node.Return (some (Node.Return (some (Node.IntegerLiteral 2))))],
      ∃ (m : Nat) (s₁ s₂ : Store),
      evalF m st 0 s₁ =
        EvalRes.ok (Object.ReturnValue (Object.ReturnValue (Object.Integer 2))) s₂ :=
  c6_program_unwraps_one_level 10
    [Node.Return (some (Node.Return (some (Node.IntegerLiteral 2))))]
    0 store0 store0 (Object.Integer 2) rfl

/-- C7: in a block, a statement evaluating to ReturnValue(v) with v ≠ Null
stops the block and the ReturnValue is returned still wrapped; a statement
evaluating to ReturnValue(Null) does not stop the block — evaluation
continues with the remaining statements in the same environment. -/
theorem c7_block_return_propagation (n : Nat) (st : Node) (rest : List Node)
    (w : Object) (env : Nat) (s s₁ : Store) (v : Object)
    (h : evalF n st env s = EvalRes.ok (Object.ReturnValue v) s₁) :
    (v ≠ Object.Null →
      evalBlockGo (n + 1) (st :: rest) w env s =
        EvalRes.ok (Object.ReturnValue v) s₁) ∧
    (v = Object.Null →
      evalBlockGo (n + 1) (st :: rest) w env s =
        evalBlockGo n rest (Object.ReturnValue Object.Null) env s₁) := by
  constructor
  · intro hv
    simp only [evalBlockGo]
    rw [h]
    cases v with
    | Null => exact absurd rfl hv
    | Integer i => rfl
    | Boolean b => rfl
    | ReturnValue x => rfl
    | Error m => rfl
    | Function a b c => rfl
  · intro hv
    subst hv
    simp only [evalBlockGo]
    rw [h]

/-- C7 witness: a block whose first statement returns Integer(7) yields the
still-wrapped ReturnValue. -/
theorem c7_block_return_propagation_witness :
    evalBlockGo 4 [Node.Return (some (Node.IntegerLiteral 7))] Object.Null
      0 store0 =
      EvalRes.ok (Object.ReturnValue (Object.Integer 7)) store0 :=
  (c7_block_return_propagation 3 (Node.Return (some (Node.IntegerLiteral 7))) []
    Object.Null 0 store0 store0 (Object.Integer 7) rfl).1
    (fun hh => Object.noConfusion hh)

/-- C8: when the If condition evaluates without error to c, the consequence
is taken iff c is truthy, truthiness being everything except Boolean(false)
and Null (so every Integer, including 0, is truthy); otherwise the
alternative is evaluated when present and the If yields Null when not. -/
theorem c8_if_truthiness (n : Nat) (cond : Node) (k a : Option Node) (env : Nat)
    (s s₁ : Store) (c : Object)
    (h : evalF n cond env s = EvalRes.ok c s₁) (he : isError c = false) :
    (isTruthy c = true ↔ c ≠ Object.Boolean false ∧ c ≠ Object.Null) ∧
    evalF (n + 1) (Node.If (some cond) k a) env s =
      (if isTruthy c then
        match k with
        | some kk => evalF n kk env s₁
        | none => EvalRes.ok Object.Null s₁
      else
        match a with
        | some aa => evalF n aa env s₁
        | none => EvalRes.ok Object.Null s₁) := by
  constructor
  · cases c with
    | Boolean b => cases b <;> simp [isTruthy]
    | Null => simp [isTruthy]
    | Integer i => simp [isTruthy]
    | ReturnValue x => simp [isTruthy]
    | Error m => simp [isTruthy]
    | Function x y z => simp [isTruthy]
  · simp only [evalF]
    rw [h]
    simp only [he, Bool.false_eq_true, if_false]

/-- C8 witness: the If semantics applied at condition value Integer(0),
which is truthy, so `if (0) \x7b 10 \x7d` takes the consequence. -/
theorem c8_if_truthiness_witness :
    (isTruthy (Object.Integer 0) = true ↔
      Object.Integer 0 ≠ Object.Boolean false ∧ Object.Integer 0 ≠ Object.Null) ∧
    evalF 2 (Node.If (some (Node.IntegerLiteral 0))
        (some (Node.IntegerLiteral 10)) none) 0 store0 =
      (if isTruthy (Object.Integer 0) then
        match some (Node.IntegerLiteral 10) with
        | some kk => evalF 1 kk 0 store0
        | none => EvalRes.ok Object.Null store0
      else
        match (none : Option Node) with
        | some aa => evalF 1 aa 0 store0
        | none => EvalRes.ok Object.Null store0) :=
  c8_if_truthiness 1 (Node.IntegerLiteral 0) (some (Node.IntegerLiteral 10))
    none 0 store0 store0 (Object.Integer 0) rfl rfl

/-- C9 counterexample: evaluating `5 / 0;` does not return an Object — the
unguarded native i64 division traps (panics), aborting the interpreter. -/
theorem c9_div_zero_traps : runProgram 200 "5 / 0;" = EvalRes.trap := rfl

/-- C9 amended: integer division returns Integer(a / b) (truncated toward
zero) whenever the divisor is nonzero and the division does not overflow,
but the b = 0 branch is a host-level trap, not a returned value. -/
theorem c9_division_semantics :
    (∀ a b : Int, b ≠ 0 → ¬(a = -9223372036854775808 ∧ b = -1) →
      evalIntegerInfixExpression "/" a b = some (Object.Integer (Int.tdiv a b))) ∧
    ∀ a : Int, evalIntegerInfixExpression "/" a 0 = none := by
  constructor
  · intro a b hb hmin
    unfold evalIntegerInfixExpression
    rw [if_neg (by decide), if_neg (by decide), if_neg (by decide), if_pos rfl,
      if_neg hb, if_neg hmin]
  · intro a
    unfold evalIntegerInfixExpression
    rw [if_neg (by decide), if_neg (by decide), if_neg (by decide), if_pos rfl,
      if_pos rfl]

/-- C9 witness: the amended division semantics at 7 / (-2) = -3. -/
theorem c9_division_semantics_witness :
    evalIntegerInfixExpression "/" 7 (-2) = some (Object.Integer (Int.tdiv 7 (-2))) :=
  c9_division_semantics.1 7 (-2) (by decide) (by decide)

/-- C10: extend_function_env pairs parameters and arguments positionally up
to the shorter list and never raises an arity error (first conjunct, for any
identifier parameter list and any argument count); surplus arguments are
ignored (`fn(x) \x7b x \x7d` called with two arguments yields the first);
an unpaired parameter is left unbound, and referencing it in a fresh
environment yields Error("identifier not found: y"). -/
theorem c10_no_arity_error :
    (∀ (names : List String) (body : Option Node) (fenv : Nat)
      (args : List Object) (s : Store),
      ∃ s', extendFunctionEnv (Object.Function (names.map Node.Identifier) body fenv)
        args s = Except.ok (s.length, s')) ∧
    resultObj (runProgram 300 "let f = fn(x) \x7b x \x7d; f(1, 2)") =
      some (Object.Integer 1) ∧
    resultObj (runProgram 300 "let f = fn(x, y) \x7b y \x7d; f(1)") =
      some (Object.Error "identifier not found: y") := by
  refine ⟨?_, rfl, rfl⟩
  intro names body fenv args s
  obtain ⟨s', hs'⟩ :=
    bindParams_identifiers_ok names args s.length (s ++ [⟨[], some fenv⟩])
  refine ⟨s', ?_⟩
  simp only [extendFunctionEnv, newEnclosed]
  rw [hs']

end Roadrunner
